import Mathlib

/-!
Shallow embedding of the WORKPLAN2024 repository
(`.github/workflows/generate_2024_data.py` and
`scripts/generate_2024_from_pdfs.py`): a straight-line ETL pipeline that
merges a CSV flight export and monthly PDF duty tables into a per-day
timeline for a target year, then projects the timeline onto spreadsheet
templates and a markdown summary.

Python dictionaries are modelled as association lists with
insertion-order update semantics (`alistSet` replaces the value in place
when the key exists, otherwise appends); calendar dates are triples
`(year, month, day)`; cell and record values are a tagged `Val` type
distinguishing raw strings from parsed `datetime.date` objects, since
the source mixes both in the same fields.
-/

namespace Workplan

/-- Association-list model of a Python `dict`: key lookup returns the
value at the first matching key. -/
def alistGet {α β : Type} [DecidableEq α] (d : List (α × β)) (k : α) : Option β :=
  (d.find? (fun p => p.1 = k)).map (·.2)

/-- `dict[k] = v` in Python: if `k` is already a key its value is
replaced in place (position preserved), otherwise `(k, v)` is appended.
All dictionaries in the program are built from `[]` by this operation,
so keys are unique and replacing the first occurrence is exact. -/
def alistSet {α β : Type} [DecidableEq α] (d : List (α × β)) (k : α) (v : β) :
    List (α × β) :=
  match d with
  | [] => [(k, v)]
  | p :: rest => if p.1 = k then (k, v) :: rest else p :: alistSet rest k v

/-- `k in dict` in Python. -/
def alistHas {α β : Type} [DecidableEq α] (d : List (α × β)) (k : α) : Bool :=
  d.any (fun p => p.1 = k)

theorem alistGet_alistSet_same {α β : Type} [DecidableEq α]
    (d : List (α × β)) (k : α) (v : β) : alistGet (alistSet d k v) k = some v := by
  induction d with
  | nil => simp [alistGet, alistSet, List.find?]
  | cons p rest ih =>
    by_cases hp : p.1 = k
    · simp [alistGet, alistSet, hp, List.find?]
    · simpa [alistGet, alistSet, hp, List.find?] using ih

theorem alistGet_alistSet_other {α β : Type} [DecidableEq α]
    (d : List (α × β)) (k k' : α) (v : β) (hne : k' ≠ k) :
    alistGet (alistSet d k v) k' = alistGet d k' := by
  induction d with
  | nil => simp [alistGet, alistSet, List.find?, Ne.symm hne]
  | cons p rest ih =>
    by_cases hp : p.1 = k
    · have hpk' : ¬ p.1 = k' := by rw [hp]; exact fun hc => hne hc.symm
      simp [alistGet, alistSet, hp, hpk', Ne.symm hne, List.find?]
    · by_cases hpk' : p.1 = k'
      · simp only [alistSet, if_neg hp]
        simp [alistGet, List.find?, hpk']
      · simp only [alistSet, if_neg hp]
        simpa [alistGet, List.find?, hpk'] using ih

/-! ### Calendar dates

`datetime.date` values are triples `(year, month, day)`.  The generator
`date_range(year)` of `generate_2024_data.py` walks from January 1 to
December 31 one day at a time; its shallow embedding enumerates the
days of the year in calendar order. -/

/-- A calendar date `(year, month, day)`. -/
abbrev Date := Nat × Nat × Nat

/-- Gregorian leap-year rule (the `datetime` library's calendar). -/
def isLeap (y : Nat) : Bool :=
  (y % 4 == 0 && y % 100 != 0) || (y % 400 == 0)

/-- Days in month `m` given the leap flag. -/
def monthDays (leap : Bool) (m : Nat) : Nat :=
  if m = 2 then (if leap then 29 else 28)
  else if m = 4 ∨ m = 6 ∨ m = 9 ∨ m = 11 then 30
  else 31

/-- Days in month `m` of year `y`. -/
def daysInMonth (y m : Nat) : Nat := monthDays (isLeap y) m

/-- The `(month, day)` pairs of a year with the given leap flag,
in calendar order. -/
def monthDayRange (leap : Bool) : List (Nat × Nat) :=
  (List.range 12).flatMap
    (fun m0 => (List.range (monthDays leap (m0 + 1))).map (fun d0 => (m0 + 1, d0 + 1)))

/-- `date_range(year)`: every `datetime.date` of the year from
January 1 to December 31, one day at a time, in calendar order. -/
def date_range (y : Nat) : List Date :=
  (monthDayRange (isLeap y)).map (fun md => (y, md.1, md.2))

/-- Strict calendar order on dates (lexicographic year, month, day). -/
def dateLt (a b : Date) : Prop :=
  a.1 < b.1 ∨ (a.1 = b.1 ∧ (a.2.1 < b.2.1 ∨ (a.2.1 = b.2.1 ∧ a.2.2 < b.2.2)))

theorem monthDayRange_pairwise (leap : Bool) :
    (monthDayRange leap).Pairwise
      (fun a b => a.1 < b.1 ∨ (a.1 = b.1 ∧ a.2 < b.2)) := by
  unfold monthDayRange
  rw [List.pairwise_flatMap]
  constructor
  · intro m0 _
    rw [List.pairwise_map]
    exact (List.pairwise_lt_range _).imp (fun h => Or.inr ⟨rfl, by omega⟩)
  · have := List.pairwise_lt_range 12
    apply this.imp
    intro m0 m1 hlt x hx y hy
    simp only [List.mem_map, List.mem_range] at hx hy
    obtain ⟨d0, _, rfl⟩ := hx
    obtain ⟨d1, _, rfl⟩ := hy
    exact Or.inl (by omega)

theorem monthDayRange_mem (leap : Bool) (m d : Nat) :
    (m, d) ∈ monthDayRange leap ↔
      1 ≤ m ∧ m ≤ 12 ∧ 1 ≤ d ∧ d ≤ monthDays leap m := by
  unfold monthDayRange
  simp only [List.mem_flatMap, List.mem_map, List.mem_range, Prod.mk.injEq]
  constructor
  · rintro ⟨m0, hm0, d0, hd0, rfl, rfl⟩
    omega
  · rintro ⟨h1, h2, h3, h4⟩
    refine ⟨m - 1, by omega, d - 1, ?_, by omega, by omega⟩
    rw [show m - 1 + 1 = m by omega]
    omega

set_option maxRecDepth 4000 in
theorem monthDayRange_length (leap : Bool) :
    (monthDayRange leap).length = if leap then 366 else 365 := by
  cases leap <;> rfl

/-! ### Date strings

`day.strftime("%Y-%m-%d")` and `datetime.strptime(s, "%Y-%m-%d")`, and
the day-first parse `pd.to_datetime(x, dayfirst=True)` used for CSV and
PDF cells. -/

/-- Decimal digits of `n`, most significant first; `fuel` bounds the
recursion (any `fuel > log10 n` gives the exact digits). -/
def natDigitsAux : Nat → Nat → List Char
  | 0, _ => []
  | fuel + 1, n =>
    if n < 10 then [Nat.digitChar n]
    else natDigitsAux fuel (n / 10) ++ [Nat.digitChar (n % 10)]

/-- `str(n)` for a natural number. -/
def natStr (n : Nat) : String := ⟨natDigitsAux (n + 1) n⟩

/-- Zero-pad a number to two digits (strftime `%m` / `%d`). -/
def pad2 (n : Nat) : String :=
  if n < 10 then ⟨'0' :: natDigitsAux (n + 1) n⟩ else natStr n

/-- `day.strftime("%Y-%m-%d")`: the ISO calendar string of a date. -/
def fmtDate (t : Date) : String :=
  ⟨(natStr t.1).data ++ '-' :: (pad2 t.2.1).data ++ '-' :: (pad2 t.2.2).data⟩

/-- Split a character list at every occurrence of `sep`. -/
def splitChars (sep : Char) : List Char → List (List Char)
  | [] => [[]]
  | c :: cs =>
    match splitChars sep cs with
    | [] => [[]]
    | g :: gs => if c = sep then [] :: g :: gs else (c :: g) :: gs

/-- The value of a decimal digit character. -/
def digitVal (c : Char) : Option Nat :=
  if '0' ≤ c ∧ c ≤ '9' then some (c.toNat - '0'.toNat) else none

/-- Parse a non-empty all-digit character list as a natural number. -/
def charsToNat (l : List Char) : Option Nat :=
  match l with
  | [] => none
  | _ =>
    l.foldl
      (fun acc c =>
        match acc, digitVal c with
        | some a, some d => some (a * 10 + d)
        | _, _ => none)
      (some 0)

/-- `datetime.strptime(s, "%Y-%m-%d").date()`: parse an ISO date string,
validating that the day exists in the month (strptime raises otherwise,
modelled as `none`). -/
def parseISO (s : String) : Option Date :=
  match splitChars '-' s.data with
  | [ys, ms, ds] =>
    match charsToNat ys, charsToNat ms, charsToNat ds with
    | some y, some m, some d =>
      if 1 ≤ m ∧ m ≤ 12 ∧ 1 ≤ d ∧ d ≤ daysInMonth y m then some (y, m, d) else none
    | _, _, _ => none
  | _ => none

/-- `pd.to_datetime(x, dayfirst=True, errors="coerce")` on the cell
strings this repository feeds it: a `DD/MM/YYYY` slash form (day first)
or an ISO `YYYY-MM-DD` form; anything else coerces to `NaT`, modelled
as `none`. -/
def parseDayfirst (s : String) : Option Date :=
  match splitChars '/' s.data with
  | [ds, ms, ys] =>
    match charsToNat ys, charsToNat ms, charsToNat ds with
    | some y, some m, some d =>
      if 1 ≤ m ∧ m ≤ 12 ∧ 1 ≤ d ∧ d ≤ daysInMonth y m then some (y, m, d) else none
    | _, _, _ => none
  | _ => parseISO s

/-- Python's `str.strip()` on the whitespace the inputs contain. -/
def stripStr (s : String) : String :=
  let ws : Char → Bool := fun c => c == ' ' || c == '\t' || c == '\n' || c == '\r'
  ⟨((s.data.dropWhile ws).reverse.dropWhile ws).reverse⟩

set_option maxRecDepth 40000 in
theorem parseISO_fmtDate_all :
    (date_range 2024).all (fun t => parseISO (fmtDate t) == some t) = true := by
  decide

theorem parseISO_fmtDate (t : Date) (ht : t ∈ date_range 2024) :
    parseISO (fmtDate t) = some t :=
  eq_of_beq (List.all_eq_true.mp parseISO_fmtDate_all t ht)

/-! ### Values and the tabular-source parser (`parse_csv`)

Cell values in the merged rows are either raw strings or parsed
`datetime.date` objects: `parse_csv` stores the parsed date object in
the row's `Date` column, while `build_consolidated` first writes the
strftime string.  The two are distinct Python values, so the model
keeps them distinct. -/

/-- A cell value: a raw string, or a parsed `datetime.date` object. -/
inductive Val where
  | str : String → Val
  | date : Date → Val
deriving DecidableEq

/-- A row/entry: a Python dict from field name to value, in insertion
order. -/
abbrev Entry := List (String × Val)

/-- Lower-case a character list (`str.lower()`). -/
def lowerChars (l : List Char) : List Char := l.map Char.toLower

/-- `pat` occurs as a prefix of `l`. -/
def prefixOfChars : List Char → List Char → Bool
  | [], _ => true
  | _ :: _, [] => false
  | p :: ps, c :: cs => p == c && prefixOfChars ps cs

/-- `pat in l` for character lists (Python substring containment). -/
def hasSub (pat : List Char) : List Char → Bool
  | [] => prefixOfChars pat []
  | c :: cs => prefixOfChars pat (c :: cs) || hasSub pat cs

/-- `next((c for c in df.columns if "date" in c.lower()), df.columns[0])`:
the first column whose lower-cased name contains `"date"`, else the
first column. -/
def findDateCol (header : List String) : String :=
  (header.find? (fun c => hasSub "date".data (lowerChars c.data))).getD (header.headD "")

/-- `parse_csv(csv_path)` of `generate_2024_data.py` on a CSV with the
given header and rows: locate the date column, parse each row's date
cell day-first (`errors="coerce"`), store the parsed date object under
the `Date` column (replacing an existing `Date` column in place,
appending otherwise, as pandas column assignment does), and index the
full rows by parsed date, dropping rows whose date fails to parse.
Later rows with the same date overwrite earlier ones. -/
def parse_csv (header : List String) (rows : List (List String)) :
    List (Date × Entry) :=
  let date_col := findDateCol header
  rows.foldl
    (fun m cells =>
      let row0 : Entry := (header.zip cells).map (fun p => (p.1, Val.str p.2))
      match (alistGet row0 date_col).bind
          (fun v => match v with | Val.str s => parseDayfirst s | _ => none) with
      | some t => alistSet m t (alistSet row0 "Date" (Val.date t))
      | none => m)
    []

/-! ### The calendar merge (`build_consolidated`) -/

/-- The body of `build_consolidated`'s loop for one day: start the
entry with the strftime `Date` string, then resolve by priority —
flight record (type `"Volo"`, then copy every record field, overwriting
on name collision), else duty code, else `"OFF (auto)"`. -/
def entryFor (flights : List (Date × Entry)) (codes : List (Date × String))
    (day : Date) : Entry :=
  let entry := alistSet [] "Date" (Val.str (fmtDate day))
  match alistGet flights day with
  | some row => row.foldl (fun e p => alistSet e p.1 p.2) (alistSet entry "Type" (Val.str "Volo"))
  | none =>
    match alistGet codes day with
    | some c => alistSet entry "Type" (Val.str c)
    | none => alistSet entry "Type" (Val.str "OFF (auto)")

/-- The loop of `build_consolidated` generalised to any target year:
one entry per day of `date_range y`, in order.  (The list of row dicts;
the final `pd.DataFrame` wrapper adds nothing the claims mention.) -/
def buildConsolidatedYear (y : Nat) (flights : List (Date × Entry))
    (codes : List (Date × String)) : List Entry :=
  (date_range y).map (entryFor flights codes)

/-- `build_consolidated(flights, codes)`: the source hard-codes the
target year 2024. -/
def build_consolidated (flights : List (Date × Entry))
    (codes : List (Date × String)) : List Entry :=
  buildConsolidatedYear 2024 flights codes

/-- Setting the pairs of `r` with `d[k] = v` in order: the last
binding of `k` in `r` wins; keys absent from `r` keep their value
from `e`. -/
theorem alistGet_foldl_set {α β : Type} [DecidableEq α]
    (r : List (α × β)) (e : List (α × β)) (k : α) :
    alistGet (r.foldl (fun e p => alistSet e p.1 p.2) e) k =
      match r.reverse.find? (fun p => p.1 = k) with
      | some p => some p.2
      | none => alistGet e k := by
  induction r generalizing e with
  | nil => simp
  | cons p rest ih =>
    simp only [List.foldl_cons, List.reverse_cons, List.find?_append, ih]
    cases hfind : rest.reverse.find? (fun q => q.1 = k) with
    | some q => simp
    | none =>
      simp only [Option.none_orElse]
      by_cases hp : p.1 = k
      · subst hp
        simp [List.find?, alistGet_alistSet_same]
      · simp [List.find?, hp, alistGet_alistSet_other _ _ _ _ (Ne.symm hp)]

/-- In a record with pairwise-distinct field names, `find?` on the
reversed record still returns the unique binding. -/
theorem find?_reverse_of_nodup {α β : Type} [DecidableEq α]
    (r : List (α × β)) (k : α) (v : β)
    (hnd : (r.map Prod.fst).Nodup) (hmem : (k, v) ∈ r) :
    r.reverse.find? (fun p => p.1 = k) = some (k, v) := by
  induction r with
  | nil => simp at hmem
  | cons p rest ih =>
    simp only [List.map_cons, List.nodup_cons] at hnd
    simp only [List.reverse_cons, List.find?_append]
    rcases List.mem_cons.mp hmem with h | h
    · subst h
      have : rest.reverse.find? (fun p => p.1 = k) = none := by
        rw [List.find?_eq_none]
        intro q hq hqk
        have hq' : q.1 ∈ rest.map Prod.fst :=
          List.mem_map_of_mem Prod.fst (List.mem_reverse.mp hq)
        simp only [decide_eq_true_eq] at hqk
        exact hnd.1 (hqk ▸ hq')
      simp [this, List.find?]
    · have := ih hnd.2 h
      simp [this]

theorem date_range_length (y : Nat) :
    (date_range y).length = if isLeap y then 366 else 365 := by
  unfold date_range
  rw [List.length_map, monthDayRange_length]

theorem date_range_pairwise (y : Nat) : (date_range y).Pairwise dateLt := by
  unfold date_range
  rw [List.pairwise_map]
  exact (monthDayRange_pairwise (isLeap y)).imp (fun h => Or.inr ⟨rfl, h⟩)

theorem dateLt_ne {a b : Date} (h : dateLt a b) : a ≠ b := by
  rintro rfl
  rcases h with h | ⟨-, h | ⟨-, h⟩⟩ <;> exact absurd h (lt_irrefl _)

theorem date_range_nodup (y : Nat) : (date_range y).Nodup :=
  (date_range_pairwise y).imp dateLt_ne

theorem date_range_mem (y : Nat) (t : Date) :
    t ∈ date_range y ↔
      t.1 = y ∧ 1 ≤ t.2.1 ∧ t.2.1 ≤ 12 ∧ 1 ≤ t.2.2 ∧ t.2.2 ≤ daysInMonth y t.2.1 := by
  unfold date_range
  simp only [List.mem_map]
  constructor
  · rintro ⟨md, hmd, rfl⟩
    have := (monthDayRange_mem (isLeap y) md.1 md.2).mp (by simpa using hmd)
    exact ⟨rfl, this.1, this.2.1, this.2.2.1, this.2.2.2⟩
  · rintro ⟨h0, h1, h2, h3, h4⟩
    refine ⟨(t.2.1, t.2.2), (monthDayRange_mem (isLeap y) t.2.1 t.2.2).mpr
      ⟨h1, h2, h3, h4⟩, ?_⟩
    rw [← h0]

/-- When the day is in the flights index the entry is the record fields
folded over the two-field seed dict. -/
theorem entryFor_flight (flights : List (Date × Entry)) (codes : List (Date × String))
    (day : Date) (row : Entry) (h : alistGet flights day = some row) :
    entryFor flights codes day =
      row.foldl (fun e p => alistSet e p.1 p.2)
        [("Date", Val.str (fmtDate day)), ("Type", Val.str "Volo")] := by
  unfold entryFor
  rw [h]
  rfl

theorem entryFor_code (flights : List (Date × Entry)) (codes : List (Date × String))
    (day : Date) (c : String) (h1 : alistGet flights day = none)
    (h2 : alistGet codes day = some c) :
    entryFor flights codes day = [("Date", Val.str (fmtDate day)), ("Type", Val.str c)] := by
  unfold entryFor
  rw [h1, h2]
  rfl

theorem entryFor_off (flights : List (Date × Entry)) (codes : List (Date × String))
    (day : Date) (h1 : alistGet flights day = none) (h2 : alistGet codes day = none) :
    entryFor flights codes day =
      [("Date", Val.str (fmtDate day)), ("Type", Val.str "OFF (auto)")] := by
  unfold entryFor
  rw [h1, h2]
  rfl

theorem alistGet_eq_none_iff {α β : Type} [DecidableEq α]
    (d : List (α × β)) (k : α) : alistGet d k = none ↔ ∀ p ∈ d, p.1 ≠ k := by
  unfold alistGet
  simp [List.find?_eq_none]

/-- A record field `(k, v)` of a flight row ends up in the merged entry
(unique field names). -/
theorem entryFor_field (flights : List (Date × Entry)) (codes : List (Date × String))
    (day : Date) (row : Entry) (k : String) (v : Val)
    (h : alistGet flights day = some row) (hnd : (row.map Prod.fst).Nodup)
    (hmem : (k, v) ∈ row) :
    alistGet (entryFor flights codes day) k = some v := by
  rw [entryFor_flight flights codes day row h, alistGet_foldl_set,
    find?_reverse_of_nodup row k v hnd hmem]

/-- A field name absent from the flight row keeps its seed value. -/
theorem entryFor_field_absent (flights : List (Date × Entry)) (codes : List (Date × String))
    (day : Date) (row : Entry) (k : String)
    (h : alistGet flights day = some row) (habs : alistGet row k = none) :
    alistGet (entryFor flights codes day) k =
      alistGet [("Date", Val.str (fmtDate day)), ("Type", Val.str "Volo")] k := by
  rw [entryFor_flight flights codes day row h, alistGet_foldl_set]
  have : row.reverse.find? (fun p => p.1 = k) = none := by
    rw [List.find?_eq_none]
    intro p hp
    have := (alistGet_eq_none_iff row k).mp habs p (List.mem_reverse.mp hp)
    simpa using this
  rw [this]

/-- C1: for every target year, the consolidated timeline built by the
`build_consolidated` loop has exactly 366 entries when the year is a
leap year and 365 otherwise, with exactly one entry per calendar date
of the year (membership in the generating date list characterises the
valid dates), in ascending date order, with no duplicates and no gaps;
`build_consolidated` itself runs this loop at its hard-coded target
year 2024. -/
theorem c1_consolidated_calendar (y : Nat) (flights : List (Date × Entry))
    (codes : List (Date × String)) :
    (buildConsolidatedYear y flights codes).length = (if isLeap y then 366 else 365)
    ∧ buildConsolidatedYear y flights codes = (date_range y).map (entryFor flights codes)
    ∧ (date_range y).Pairwise dateLt
    ∧ (date_range y).Nodup
    ∧ (∀ t : Date, t ∈ date_range y ↔
        t.1 = y ∧ 1 ≤ t.2.1 ∧ t.2.1 ≤ 12 ∧ 1 ≤ t.2.2 ∧ t.2.2 ≤ daysInMonth y t.2.1)
    ∧ build_consolidated flights codes = buildConsolidatedYear 2024 flights codes := by
  refine ⟨?_, rfl, date_range_pairwise y, date_range_nodup y, date_range_mem y, rfl⟩
  unfold buildConsolidatedYear
  rw [List.length_map, date_range_length]

/-- A flights index whose record for 2024-03-15 carries its own `Type`
field. -/
def c2flights : List (Date × Entry) := [((2024, 3, 15), [("Type", Val.str "X")])]

/-- C2 is false as stated: 2024-03-15 is a key of the flights index,
yet the merged entry's `Type` is the record's own `"X"`, not the fixed
flight label `"Volo"`, because the field-copy loop overwrites it. -/
theorem c2_counterexample :
    (2024, 3, 15) ∈ date_range 2024
    ∧ alistGet c2flights (2024, 3, 15) ≠ none
    ∧ alistGet (entryFor c2flights [] (2024, 3, 15)) "Type" ≠ some (Val.str "Volo")
    ∧ alistGet (entryFor c2flights [] (2024, 3, 15)) "Type" = some (Val.str "X") := by
  refine ⟨(date_range_mem 2024 (2024, 3, 15)).mpr (by decide), ?_, ?_, ?_⟩ <;> decide

/-- C2 (amended): `build_consolidated` resolves each day's `Type` by
priority — flight record, else duty code, else default.  On a flight
day `Type` is first set to `"Volo"` and then every record field is
copied in, overwriting on name collision; hence `Type` is `"Volo"`
exactly when the record has no `Type` field of its own, and every field
of the record (with its distinct field names) is present in the merged
entry.  On a code day `Type` is the code string, otherwise
`"OFF (auto)"`. -/
theorem c2_priority_resolution (flights : List (Date × Entry))
    (codes : List (Date × String)) (day : Date) :
    (∀ row, alistGet flights day = some row → (row.map Prod.fst).Nodup →
      ((alistGet row "Type" = none →
          alistGet (entryFor flights codes day) "Type" = some (Val.str "Volo"))
        ∧ ∀ k v, (k, v) ∈ row → alistGet (entryFor flights codes day) k = some v))
    ∧ (∀ c, alistGet flights day = none → alistGet codes day = some c →
        alistGet (entryFor flights codes day) "Type" = some (Val.str c))
    ∧ (alistGet flights day = none → alistGet codes day = none →
        alistGet (entryFor flights codes day) "Type" = some (Val.str "OFF (auto)")) := by
  refine ⟨fun row h hnd => ⟨fun habs => ?_, fun k v hm => entryFor_field _ _ _ _ _ _ h hnd hm⟩,
    fun c h1 h2 => ?_, fun h1 h2 => ?_⟩
  · rw [entryFor_field_absent flights codes day row "Type" h habs]
    simp [alistGet, List.find?]
  · rw [entryFor_code flights codes day c h1 h2]
    simp [alistGet, List.find?]
  · rw [entryFor_off flights codes day h1 h2]
    simp [alistGet, List.find?]

/-- Flights/codes indexes realising the spec's three examples. -/
def exFlights : List (Date × Entry) := [((2024, 3, 15), [("Flight", Val.str "AZ100")])]

def exCodes : List (Date × String) := [((2024, 6, 10), "RI")]

theorem c2_priority_witness :
    alistGet (entryFor exFlights exCodes (2024, 3, 15)) "Type" = some (Val.str "Volo")
    ∧ alistGet (entryFor exFlights exCodes (2024, 3, 15)) "Flight" = some (Val.str "AZ100")
    ∧ alistGet (entryFor exFlights exCodes (2024, 6, 10)) "Type" = some (Val.str "RI")
    ∧ alistGet (entryFor exFlights exCodes (2024, 12, 25)) "Type"
        = some (Val.str "OFF (auto)") :=
  ⟨((c2_priority_resolution exFlights exCodes (2024, 3, 15)).1 _ rfl (by decide)).1 (by decide),
    ((c2_priority_resolution exFlights exCodes (2024, 3, 15)).1 _ rfl (by decide)).2
      "Flight" (Val.str "AZ100") (by decide),
    (c2_priority_resolution exFlights exCodes (2024, 6, 10)).2.1 "RI" (by decide) (by decide),
    (c2_priority_resolution exFlights exCodes (2024, 12, 25)).2.2 (by decide) (by decide)⟩

/-- The tabular source of the spec's first example: a `Date` column
parsing day-first to 2024-03-15 and an extra `Flight=AZ100` field. -/
def c3header : List String := ["Date", "Flight"]

def c3rows : List (List String) := [["15/03/2024", "AZ100"]]

/-- C3 is false as stated: the flights index stores the parsed
`datetime.date` object in the row's `Date` field, and the field-copy
loop overwrites the merge-assigned ISO string with it, so the merged
entry's `Date` is the date object, not the ISO-formatted calendar
string. -/
theorem c3_counterexample :
    parse_csv c3header c3rows
      = [((2024, 3, 15), [("Date", Val.date (2024, 3, 15)), ("Flight", Val.str "AZ100")])]
    ∧ alistGet (entryFor (parse_csv c3header c3rows) [] (2024, 3, 15)) "Date"
        = some (Val.date (2024, 3, 15))
    ∧ alistGet (entryFor (parse_csv c3header c3rows) [] (2024, 3, 15)) "Date"
        ≠ some (Val.str "2024-03-15") := by
  refine ⟨?_, ?_, ?_⟩ <;> decide

/-- C3 (amended): for that tabular source (and no code entry for the
date) the merged entry is exactly
`{Date: date(2024-03-15), Type: "Volo", Flight: "AZ100"}` — the `Date`
field holds the parsed calendar date object (whose ISO rendering is
`"2024-03-15"`) rather than the ISO string, which the record's own
`Date` field overwrote. -/
theorem c3_example_entry :
    entryFor (parse_csv c3header c3rows) [] (2024, 3, 15)
      = [("Date", Val.date (2024, 3, 15)), ("Type", Val.str "Volo"),
          ("Flight", Val.str "AZ100")]
    ∧ fmtDate (2024, 3, 15) = "2024-03-15" := by
  refine ⟨?_, ?_⟩ <;> decide

/-- C4: when a flight record carries its own `Date` or `Type` field,
the field-copy step of `build_consolidated` silently overwrites the
merge-assigned `Date` string or `Type` label with the record's value
(no guard exists: the copy loop is unconditional). -/
theorem c4_reserved_field_overwrite (flights : List (Date × Entry))
    (codes : List (Date × String)) (day : Date) (row : Entry)
    (h : alistGet flights day = some row) (hnd : (row.map Prod.fst).Nodup) :
    (∀ v, ("Date", v) ∈ row → alistGet (entryFor flights codes day) "Date" = some v)
    ∧ (∀ v, ("Type", v) ∈ row → alistGet (entryFor flights codes day) "Type" = some v) :=
  ⟨fun v hv => entryFor_field flights codes day row "Date" v h hnd hv,
    fun v hv => entryFor_field flights codes day row "Type" v h hnd hv⟩

/-- A record carrying both reserved field names. -/
def c4flights : List (Date × Entry) :=
  [((2024, 3, 15), [("Date", Val.date (2024, 3, 15)), ("Type", Val.str "ZZZ")])]

theorem c4_witness :
    alistGet (entryFor c4flights [] (2024, 3, 15)) "Date" = some (Val.date (2024, 3, 15))
    ∧ alistGet (entryFor c4flights [] (2024, 3, 15)) "Type" = some (Val.str "ZZZ") :=
  ⟨(c4_reserved_field_overwrite c4flights [] (2024, 3, 15) _ rfl (by decide)).1
      (Val.date (2024, 3, 15)) (by decide),
    (c4_reserved_field_overwrite c4flights [] (2024, 3, 15) _ rfl (by decide)).2
      (Val.str "ZZZ") (by decide)⟩

/-! ### The document-source parser (`parse_pdfs`)

A PDF file is a list of pages; `page.extract_table()` yields `none` or
a list of rows; a row is a list of optional cell strings (pdfplumber
cells may be `None`). -/

/-- A row of an extracted PDF table. -/
abbrev PdfRow := List (Option String)

/-- A page: `extract_table()` returns a table or `None`. -/
abbrev PdfPage := Option (List PdfRow)

/-- A PDF file present in the data directory (missing files are simply
not in the input list, as the source skips them). -/
abbrev PdfFile := List PdfPage

/-- `str(row[1]).strip() if len(row) > 1 and row[1] else ""`: the duty
code of a row — the trimmed second cell when it exists and is truthy,
else the empty string. -/
def pdfCode (rest : List (Option String)) : String :=
  match rest.head? with
  | some (some s1) => if s1 = "" then "" else stripStr s1
  | _ => ""

/-- The `(date, code)` pair a table row contributes, or `none` when the
row is skipped: empty row, falsy first cell, unparseable date
(`errors="coerce"` gives falsy `NaT`), or empty code — exactly the
guards of lines 39-43 of `generate_2024_data.py`. -/
def pdfRowKV (row : PdfRow) : Option (Date × String) :=
  match row with
  | [] => none
  | c0 :: rest =>
    match c0 with
    | none => none
    | some s0 =>
      if s0 = "" then none
      else
        match parseDayfirst s0 with
        | none => none
        | some dt =>
          if pdfCode rest = "" then none else some (dt, pdfCode rest)

/-- Processing one table row: `code_by_date[dt] = code` when the row
contributes, otherwise the mapping is untouched. -/
def pdfRowStep (m : List (Date × String)) (row : PdfRow) : List (Date × String) :=
  match pdfRowKV row with
  | some (dt, code) => alistSet m dt code
  | none => m

/-- `parse_pdfs(pdf_dir)`: iterate the present files, their pages, the
rows of each detected table (`if not table: continue` skips `None` and
empty tables), accumulating `code_by_date`. -/
def parse_pdfs (files : List PdfFile) : List (Date × String) :=
  files.foldl
    (fun m file =>
      file.foldl
        (fun m page =>
          match page with
          | none => m
          | some table => if table = [] then m else table.foldl pdfRowStep m)
        m)
    []

/-- All table rows of the input in processing order. -/
def pdfAllRows (files : List PdfFile) : List PdfRow :=
  files.flatMap (fun file =>
    file.flatMap (fun page =>
      match page with
      | none => []
      | some table => table))

theorem parse_pdfs_eq_foldl_aux (files : List PdfFile) (m : List (Date × String)) :
    files.foldl
      (fun m file =>
        file.foldl
          (fun m page =>
            match page with
            | none => m
            | some table => if table = [] then m else table.foldl pdfRowStep m)
          m)
      m
    = (pdfAllRows files).foldl pdfRowStep m := by
  induction files generalizing m with
  | nil => simp [pdfAllRows]
  | cons file rest ih =>
    simp only [List.foldl_cons, pdfAllRows, List.flatMap_cons, List.foldl_append, ih]
    congr 1
    induction file generalizing m with
    | nil => simp
    | cons page pages ihp =>
      simp only [List.foldl_cons, List.flatMap_cons, List.foldl_append]
      cases page with
      | none => simp [ihp]
      | some table =>
        by_cases ht : table = []
        · simp [ht, ihp]
        · simp only [ht, if_false, ihp]

theorem parse_pdfs_eq_foldl (files : List PdfFile) :
    parse_pdfs files = (pdfAllRows files).foldl pdfRowStep [] :=
  parse_pdfs_eq_foldl_aux files []

theorem foldl_pdfRowStep_eq (rows : List PdfRow) (m : List (Date × String)) :
    rows.foldl pdfRowStep m =
      (rows.filterMap pdfRowKV).foldl (fun e p => alistSet e p.1 p.2) m := by
  induction rows generalizing m with
  | nil => simp
  | cons row rest ih =>
    simp only [List.foldl_cons, List.filterMap_cons]
    cases hkv : pdfRowKV row with
    | none => simp [pdfRowStep, hkv, ih]
    | some kv => simp [pdfRowStep, hkv, ih]

/-- C5: a table row whose first cell is missing, empty or fails the
day-first parse, or whose code cell is missing or trims to the empty
string, contributes no entry to the codes index (the step leaves the
mapping untouched, and the model is total, so no error); and the codes
index maps each date to the code of the *last* contributing row in
iteration order across all files, pages and positions (`find?` on the
reversed list of contributed pairs picks the most recently processed
one). -/
theorem c5_pdf_skip_and_last_write :
    (∀ (m : List (Date × String)) (c0 : Option String) (rest : List (Option String)),
      (c0 = none ∨ c0 = some ""
        ∨ (∀ s0, c0 = some s0 → parseDayfirst s0 = none)
        ∨ pdfCode rest = "")
      → pdfRowStep m (c0 :: rest) = m)
    ∧ (∀ m, pdfRowStep m [] = m)
    ∧ (∀ (files : List PdfFile) (dt : Date),
        alistGet (parse_pdfs files) dt =
          match ((pdfAllRows files).filterMap pdfRowKV).reverse.find?
              (fun p => p.1 = dt) with
          | some p => some p.2
          | none => none) := by
  refine ⟨?_, fun m => rfl, ?_⟩
  · rintro m c0 rest (rfl | rfl | hbad | hcode)
    · rfl
    · rfl
    · cases c0 with
      | none => rfl
      | some s0 =>
        simp only [pdfRowStep, pdfRowKV]
        by_cases hs : s0 = ""
        · simp [hs]
        · simp [hs, hbad s0 rfl]
    · cases c0 with
      | none => rfl
      | some s0 =>
        simp only [pdfRowStep, pdfRowKV]
        by_cases hs : s0 = ""
        · simp [hs]
        · cases hp : parseDayfirst s0 <;> simp [hs, hp, hcode]
  · intro files dt
    rw [parse_pdfs_eq_foldl, foldl_pdfRowStep_eq, alistGet_foldl_set]
    cases ((pdfAllRows files).filterMap pdfRowKV).reverse.find? (fun p => p.1 = dt) with
    | none => rfl
    | some p => rfl

/-- One file with one page whose table holds a skipped garbage row and
two rows for 2024-06-10: the later code wins. -/
def c5files : List PdfFile :=
  [[some [[some "garbage", some "RI"],
          [some "10/06/2024", some "RI"],
          [some "10/06/2024", some " S1 "]]]]

theorem c5_witness :
    pdfRowStep [] [some "garbage", some "RI"] = []
    ∧ alistGet (parse_pdfs c5files) (2024, 6, 10) = some "S1" := by
  constructor
  · exact (c5_pdf_skip_and_last_write.1 [] (some "garbage") [some "RI"]
      (Or.inr (Or.inr (Or.inl (by intro s0 hs0; cases hs0; decide)))))
  · rw [c5_pdf_skip_and_last_write.2.2 c5files (2024, 6, 10)]
    decide

/-! ### Spreadsheets

An openpyxl worksheet: cell values indexed by 1-based `(row, column)`,
`none` for an empty cell, plus the sheet's `max_column` (the width of
`ws[1]`, whose length is the header column count read by the overwrite
mode). -/

structure Sheet (α : Type) where
  maxCol : Nat
  cells : Nat → Nat → Option α

/-- `ws.cell(row=r, column=c).value = v` (with `v = none` for clearing). -/
def setCell {α : Type} (s : Sheet α) (r c : Nat) (v : Option α) : Sheet α :=
  { maxCol := s.maxCol,
    cells := fun r' c' => if r' = r ∧ c' = c then v else s.cells r' c' }

/-- Inner loop of `overwrite_excel_files`:
`for j, value in enumerate(row): if j < len(header): ws.cell(row=i, column=j+1).value = value`,
with `j` starting at the given index. -/
def writeRowFrom {α : Type} (hdrLen i j : Nat) (st : Sheet α) : List α → Sheet α
  | [] => st
  | v :: rest =>
    writeRowFrom hdrLen i (j + 1)
      (if j < hdrLen then setCell st i (j + 1) (some v) else st) rest

/-- Outer loop: `for i, row in enumerate(rows, start=2)` with `i`
starting at the given row number. -/
def writeRowsFrom {α : Type} (hdrLen i : Nat) (st : Sheet α) : List (List α) → Sheet α
  | [] => st
  | row :: rest => writeRowsFrom hdrLen (i + 1) (writeRowFrom hdrLen i 0 st row) rest

/-- The per-file body of `overwrite_excel_files`: read the header row
(`header = [c.value for c in ws[1]]`, whose length is `ws.max_column`),
then overwrite values row by row from row 2, skipping columns past the
header width. -/
def overwrite_sheet {α : Type} (df : List (List α)) (s : Sheet α) : Sheet α :=
  let header := (List.range s.maxCol).map (fun c => s.cells 1 (c + 1))
  writeRowsFrom header.length 2 s df

/-- `overwrite_excel_files(consolidated_df, out_dir)`: every spreadsheet
found in the output directory receives the identical timeline. -/
def overwrite_excel_files {α : Type} (df : List (List α)) (sheets : List (Sheet α)) :
    List (Sheet α) :=
  sheets.map (overwrite_sheet df)

theorem writeRowFrom_maxCol {α : Type} (hdrLen i : Nat) (row : List α) :
    ∀ (j : Nat) (st : Sheet α), (writeRowFrom hdrLen i j st row).maxCol = st.maxCol := by
  induction row with
  | nil => intro j st; rfl
  | cons v rest ih =>
    intro j st
    rw [writeRowFrom, ih]
    split <;> rfl

theorem writeRowsFrom_maxCol {α : Type} (hdrLen : Nat) (rows : List (List α)) :
    ∀ (i : Nat) (st : Sheet α), (writeRowsFrom hdrLen i st rows).maxCol = st.maxCol := by
  induction rows with
  | nil => intro i st; rfl
  | cons row rest ih =>
    intro i st
    rw [writeRowsFrom, ih, writeRowFrom_maxCol]

theorem writeRowFrom_frame {α : Type} (hdrLen i : Nat) (row : List α) :
    ∀ (j : Nat) (st : Sheet α) (r c : Nat),
      (r ≠ i ∨ c ≤ j ∨ c > j + row.length ∨ c > hdrLen) →
      (writeRowFrom hdrLen i j st row).cells r c = st.cells r c := by
  induction row with
  | nil => intro j st r c _; rfl
  | cons v rest ih =>
    intro j st r c h
    rw [writeRowFrom]
    rw [ih (j + 1) _ r c (by rcases h with h | h | h | h <;> simp_all <;> omega)]
    by_cases hj : j < hdrLen
    · simp only [hj, if_true, setCell]
      have : ¬ (r = i ∧ c = j + 1) := by
        rintro ⟨rfl, rfl⟩
        rcases h with h | h | h | h <;> simp_all <;> omega
      simp [this]
    · simp [hj]

theorem writeRowFrom_write {α : Type} (hdrLen i : Nat) (row : List α) :
    ∀ (j : Nat) (st : Sheet α) (jj : Nat) (hjj : jj < row.length), j + jj < hdrLen →
      (writeRowFrom hdrLen i j st row).cells i (j + jj + 1)
        = some (row.get ⟨jj, hjj⟩) := by
  induction row with
  | nil => intro j st jj hjj; exact absurd hjj (by simp)
  | cons v rest ih =>
    intro j st jj hjj hlt
    cases jj with
    | zero =>
      rw [writeRowFrom]
      rw [writeRowFrom_frame hdrLen i rest (j + 1) _ i (j + 0 + 1) (by omega)]
      have hj : j < hdrLen := by omega
      simp [hj, setCell]
    | succ k =>
      rw [writeRowFrom]
      have hk : k < rest.length := by simpa using Nat.lt_of_succ_lt_succ hjj
      have := ih (j + 1) (if j < hdrLen then setCell st i (j + 1) (some v) else st)
        k hk (by omega)
      rw [show j + (k + 1) + 1 = j + 1 + k + 1 by omega]
      exact this

theorem writeRowsFrom_frame {α : Type} (hdrLen : Nat) (rows : List (List α)) :
    ∀ (i : Nat) (st : Sheet α) (r c : Nat),
      (r < i ∨ r ≥ i + rows.length ∨ c = 0 ∨ c > hdrLen) →
      (writeRowsFrom hdrLen i st rows).cells r c = st.cells r c := by
  induction rows with
  | nil => intro i st r c _; rfl
  | cons row rest ih =>
    intro i st r c h
    rw [writeRowsFrom]
    rw [ih (i + 1) _ r c (by rcases h with h | h | h | h <;> simp_all <;> omega)]
    exact writeRowFrom_frame hdrLen i row 0 st r c
      (by rcases h with h | h | h | h <;> simp_all <;> omega)

theorem writeRowsFrom_write {α : Type} (hdrLen : Nat) (rows : List (List α)) :
    ∀ (i : Nat) (st : Sheet α) (i0 : Nat) (hi0 : i0 < rows.length)
      (jj : Nat) (hjj : jj < (rows.get ⟨i0, hi0⟩).length), jj < hdrLen →
      (writeRowsFrom hdrLen i st rows).cells (i + i0) (jj + 1)
        = some ((rows.get ⟨i0, hi0⟩).get ⟨jj, hjj⟩) := by
  induction rows with
  | nil => intro i st i0 hi0; exact absurd hi0 (by simp)
  | cons row rest ih =>
    intro i st i0 hi0 jj hjj hlt
    cases i0 with
    | zero =>
      rw [writeRowsFrom]
      rw [writeRowsFrom_frame hdrLen rest (i + 1) _ (i + 0) (jj + 1) (by omega)]
      have := writeRowFrom_write hdrLen i row 0 st jj (by simpa using hjj) (by omega)
      simpa using this
    | succ k =>
      rw [writeRowsFrom]
      have hk : k < rest.length := by simpa using Nat.lt_of_succ_lt_succ hi0
      have := ih (i + 1) (writeRowFrom hdrLen i 0 st row) k hk jj
        (by simpa using hjj) hlt
      rw [show i + (k + 1) = i + 1 + k by omega]
      exact this

/-- C6: in overwrite mode, writing a timeline of length `L` into a
spreadsheet touches only rows `2 .. L+1` and only columns `1 .. ws.max_column`
(the header row's column count): the header row, every row beyond
`L+1`, and every cell in a column past the header width keep their
previous values, while cell `(i0+2, jj+1)` receives timeline value
`df[i0][jj]` for every in-range column; and every spreadsheet in the
output directory receives the identical timeline. -/
theorem c6_overwrite_frame {α : Type} (df : List (List α)) (s : Sheet α) :
    ((overwrite_sheet df s).maxCol = s.maxCol)
    ∧ (∀ c, (overwrite_sheet df s).cells 1 c = s.cells 1 c)
    ∧ (∀ r c, r ≥ df.length + 2 → (overwrite_sheet df s).cells r c = s.cells r c)
    ∧ (∀ r c, c > s.maxCol → (overwrite_sheet df s).cells r c = s.cells r c)
    ∧ (∀ (i0 : Nat) (hi0 : i0 < df.length) (jj : Nat)
          (hjj : jj < (df.get ⟨i0, hi0⟩).length), jj < s.maxCol →
        (overwrite_sheet df s).cells (i0 + 2) (jj + 1)
          = some ((df.get ⟨i0, hi0⟩).get ⟨jj, hjj⟩))
    ∧ (∀ sheets, overwrite_excel_files df sheets = sheets.map (overwrite_sheet df)) := by
  have hhdr : ((List.range s.maxCol).map (fun c => s.cells 1 (c + 1))).length = s.maxCol := by
    rw [List.length_map, List.length_range]
  refine ⟨?_, ?_, ?_, ?_, ?_, fun _ => rfl⟩
  · unfold overwrite_sheet
    rw [writeRowsFrom_maxCol]
  · intro c
    unfold overwrite_sheet
    exact writeRowsFrom_frame _ df 2 s 1 c (by omega)
  · intro r c hr
    unfold overwrite_sheet
    exact writeRowsFrom_frame _ df 2 s r c (by omega)
  · intro r c hc
    unfold overwrite_sheet
    exact writeRowsFrom_frame _ df 2 s r c (by rw [hhdr]; omega)
  · intro i0 hi0 jj hjj hlt
    unfold overwrite_sheet
    have := writeRowsFrom_write
      ((List.range s.maxCol).map (fun c => s.cells 1 (c + 1))).length df 2 s i0 hi0 jj hjj
      (by rw [hhdr]; exact hlt)
    rw [show i0 + 2 = 2 + i0 by omega]
    exact this

/-- A concrete 3-column template sheet with content in rows 1–5. -/
def c6sheet : Sheet String :=
  { maxCol := 3, cells := fun r c => if r ≤ 5 ∧ 1 ≤ c ∧ c ≤ 4 then some "t" else none }

def c6df : List (List String) := [["a", "b", "c", "d"], ["e"]]

theorem c6_witness :
    (overwrite_sheet c6df c6sheet).cells 1 1 = some "t"
    ∧ (overwrite_sheet c6df c6sheet).cells 4 2 = some "t"
    ∧ (overwrite_sheet c6df c6sheet).cells 2 4 = some "t"
    ∧ (overwrite_sheet c6df c6sheet).cells 2 1 = some "a"
    ∧ (overwrite_sheet c6df c6sheet).cells 3 1 = some "e" :=
  ⟨(c6_overwrite_frame c6df c6sheet).2.1 1,
    (c6_overwrite_frame c6df c6sheet).2.2.1 4 2 (by decide),
    (c6_overwrite_frame c6df c6sheet).2.2.2.1 2 4 (by decide),
    (c6_overwrite_frame c6df c6sheet).2.2.2.2.1 0 (by decide) 0 (by decide) (by decide),
    (c6_overwrite_frame c6df c6sheet).2.2.2.2.1 1 (by decide) 0 (by decide) (by decide)⟩

/-! ### Per-month template mode (`write_df_into_workbook`) -/

/-- Clear `n` cells of row `r` starting at column `c`
(`if cell.value is not None: cell.value = None` — the net effect is an
empty cell either way). -/
def clearRowFrom {α : Type} (r c : Nat) (st : Sheet α) : Nat → Sheet α
  | 0 => st
  | n + 1 => clearRowFrom r (c + 1) (setCell st r c none) n

/-- Clear `n` rows starting at row `r`, columns `1 .. ncols`
(`for r in range(start_row, start_row + max_rows_to_clear): for c in range(1, ws.max_column + 1)`). -/
def clearRowsFrom {α : Type} (r ncols : Nat) (st : Sheet α) : Nat → Sheet α
  | 0 => st
  | n + 1 => clearRowsFrom (r + 1) ncols (clearRowFrom r 1 st ncols) n

/-- `for j, value in enumerate(row): ws.cell(row=r, column=start_col+j, value=value)`. -/
def writeCellsFrom {α : Type} (r c : Nat) (st : Sheet α) : List α → Sheet α
  | [] => st
  | v :: rest => writeCellsFrom r (c + 1) (setCell st r c (some v)) rest

/-- `for i, row in enumerate(df.itertuples(index=False)): ...`. -/
def writeDfFrom {α : Type} (r c : Nat) (st : Sheet α) : List (List α) → Sheet α
  | [] => st
  | row :: rest => writeDfFrom (r + 1) c (writeCellsFrom r c st row) rest

/-- `write_df_into_workbook(workbook_path, df, start_row, start_col)`:
clear `max(50, len(df) + 10)` rows from `start_row` across all existing
columns, then write the extracted values positionally from
`(start_row, start_col)` and save. -/
def write_df_into_workbook {α : Type} (df : List (List α)) (st : Sheet α)
    (start_row start_col : Nat) : Sheet α :=
  let max_rows_to_clear := max 50 (df.length + 10)
  writeDfFrom start_row start_col
    (clearRowsFrom start_row st.maxCol st max_rows_to_clear) df

theorem clearRowFrom_cells {α : Type} (r : Nat) (n : Nat) :
    ∀ (c : Nat) (st : Sheet α) (r' c' : Nat),
      (clearRowFrom r c st n).cells r' c' =
        if r' = r ∧ c ≤ c' ∧ c' < c + n then none else st.cells r' c' := by
  induction n with
  | zero =>
    intro c st r' c'
    have hcond : ¬ (r' = r ∧ c ≤ c' ∧ c' < c + 0) := by rintro ⟨-, h2, h3⟩; omega
    rw [if_neg hcond]
    rfl
  | succ n ih =>
    intro c st r' c'
    rw [clearRowFrom, ih]
    simp only [setCell]
    split_ifs <;> first | rfl | omega

theorem clearRowsFrom_cells {α : Type} (ncols : Nat) (n : Nat) :
    ∀ (r : Nat) (st : Sheet α) (r' c' : Nat),
      (clearRowsFrom r ncols st n).cells r' c' =
        if r ≤ r' ∧ r' < r + n ∧ 1 ≤ c' ∧ c' ≤ ncols then none else st.cells r' c' := by
  induction n with
  | zero =>
    intro r st r' c'
    have hcond : ¬ (r ≤ r' ∧ r' < r + 0 ∧ 1 ≤ c' ∧ c' ≤ ncols) := by
      rintro ⟨h1, h2, -, -⟩; omega
    rw [if_neg hcond]
    rfl
  | succ n ih =>
    intro r st r' c'
    rw [clearRowsFrom, ih, clearRowFrom_cells]
    split_ifs <;> first | rfl | omega

theorem writeCellsFrom_frame {α : Type} (r : Nat) (row : List α) :
    ∀ (c : Nat) (st : Sheet α) (r' c' : Nat),
      (r' ≠ r ∨ c' < c ∨ c' ≥ c + row.length) →
      (writeCellsFrom r c st row).cells r' c' = st.cells r' c' := by
  induction row with
  | nil => intro c st r' c' _; rfl
  | cons v rest ih =>
    intro c st r' c' h
    rw [writeCellsFrom]
    rw [ih (c + 1) _ r' c' (by rcases h with h | h | h <;> simp_all <;> omega)]
    simp only [setCell]
    rw [if_neg]
    rintro ⟨rfl, rfl⟩
    rcases h with h | h | h <;> simp_all <;> omega

theorem writeCellsFrom_write {α : Type} (r : Nat) (row : List α) :
    ∀ (c : Nat) (st : Sheet α) (j : Nat) (hj : j < row.length),
      (writeCellsFrom r c st row).cells r (c + j) = some (row.get ⟨j, hj⟩) := by
  induction row with
  | nil => intro c st j hj; exact absurd hj (by simp)
  | cons v rest ih =>
    intro c st j hj
    cases j with
    | zero =>
      rw [writeCellsFrom]
      rw [writeCellsFrom_frame r rest (c + 1) _ r (c + 0) (by omega)]
      simp [setCell]
    | succ k =>
      rw [writeCellsFrom]
      have hk : k < rest.length := by simpa using Nat.lt_of_succ_lt_succ hj
      have := ih (c + 1) (setCell st r c (some v)) k hk
      rw [show c + (k + 1) = c + 1 + k by omega]
      exact this

theorem writeDfFrom_frame {α : Type} (c : Nat) (rows : List (List α)) :
    ∀ (r : Nat) (st : Sheet α) (r' c' : Nat),
      (∀ (i : Nat) (hi : i < rows.length), r' = r + i →
        c' < c ∨ c' ≥ c + (rows.get ⟨i, hi⟩).length) →
      (writeDfFrom r c st rows).cells r' c' = st.cells r' c' := by
  induction rows with
  | nil => intro r st r' c' _; rfl
  | cons row rest ih =>
    intro r st r' c' h
    rw [writeDfFrom]
    rw [ih (r + 1) _ r' c' ?_]
    · by_cases hr : r' = r
      · exact writeCellsFrom_frame r row c st r' c'
          (Or.inr (by simpa using h 0 (by simp) hr))
      · exact writeCellsFrom_frame r row c st r' c' (Or.inl hr)
    · intro i hi hr'
      have := h (i + 1) (by simpa using Nat.succ_lt_succ hi) (by omega)
      simpa using this

theorem writeDfFrom_write {α : Type} (c : Nat) (rows : List (List α)) :
    ∀ (r : Nat) (st : Sheet α) (i : Nat) (hi : i < rows.length)
      (j : Nat) (hj : j < (rows.get ⟨i, hi⟩).length),
      (writeDfFrom r c st rows).cells (r + i) (c + j)
        = some ((rows.get ⟨i, hi⟩).get ⟨j, hj⟩) := by
  induction rows with
  | nil => intro r st i hi; exact absurd hi (by simp)
  | cons row rest ih =>
    intro r st i hi j hj
    cases i with
    | zero =>
      rw [writeDfFrom]
      rw [writeDfFrom_frame c rest (r + 1) _ (r + 0) (c + j)
        (by intro i hi hr; omega)]
      exact writeCellsFrom_write r row c st j (by simpa using hj)
    | succ k =>
      rw [writeDfFrom]
      have hk : k < rest.length := by simpa using Nat.lt_of_succ_lt_succ hi
      have := ih (r + 1) (writeCellsFrom r c st row) k hk j (by simpa using hj)
      rw [show r + (k + 1) = r + 1 + k by omega]
      exact this

/-- A cell `(r, c)` receives an extracted value:
`r = start_row + i`, `c = start_col + j` for an in-range `(i, j)`. -/
def writtenAt {α : Type} (df : List (List α)) (start_row start_col r c : Nat) : Prop :=
  ∃ (i : Nat) (hi : i < df.length) (j : Nat),
    j < (df.get ⟨i, hi⟩).length ∧ r = start_row + i ∧ c = start_col + j

/-- C7: in per-month template mode, writing an extracted table of `R`
rows first clears every cell in rows
`start_row .. start_row + max(50, R+10) - 1` across all existing
columns `1 .. ws.max_column`, then writes extracted value `(i, j)`
(0-based) to template cell `(start_row + i, start_col + j)`; cells of
the cleared region that are not written end up empty, and cells outside
the cleared region that are not written keep their template values. -/
theorem c7_template_write {α : Type} (df : List (List α)) (st : Sheet α)
    (start_row start_col : Nat) :
    (∀ (i : Nat) (hi : i < df.length) (j : Nat) (hj : j < (df.get ⟨i, hi⟩).length),
      (write_df_into_workbook df st start_row start_col).cells
          (start_row + i) (start_col + j)
        = some ((df.get ⟨i, hi⟩).get ⟨j, hj⟩))
    ∧ (∀ r c, start_row ≤ r → r < start_row + max 50 (df.length + 10) →
        1 ≤ c → c ≤ st.maxCol →
        ¬ writtenAt df start_row start_col r c →
        (write_df_into_workbook df st start_row start_col).cells r c = none)
    ∧ (∀ r c,
        (r < start_row ∨ r ≥ start_row + max 50 (df.length + 10)
          ∨ c < 1 ∨ c > st.maxCol) →
        ¬ writtenAt df start_row start_col r c →
        (write_df_into_workbook df st start_row start_col).cells r c
          = st.cells r c) := by
  refine ⟨?_, ?_, ?_⟩
  · intro i hi j hj
    unfold write_df_into_workbook
    exact writeDfFrom_write start_col df start_row _ i hi j hj
  · intro r c h1 h2 h3 h4 hw
    unfold write_df_into_workbook
    rw [writeDfFrom_frame start_col df start_row _ r c ?_]
    · rw [clearRowsFrom_cells]
      rw [if_pos ⟨h1, h2, h3, h4⟩]
    · intro i hi hr
      rcases Nat.lt_or_ge c start_col with hc | hc
      · exact Or.inl hc
      · refine Or.inr ?_
        by_contra hlt
        exact hw ⟨i, hi, c - start_col, by omega, hr, by omega⟩
  · intro r c hout hw
    unfold write_df_into_workbook
    rw [writeDfFrom_frame start_col df start_row _ r c ?_]
    · rw [clearRowsFrom_cells]
      rw [if_neg]
      rintro ⟨ha, hb, hc, hd⟩
      rcases hout with h | h | h | h <;> omega
    · intro i hi hr
      rcases Nat.lt_or_ge c start_col with hc | hc
      · exact Or.inl hc
      · refine Or.inr ?_
        by_contra hlt
        exact hw ⟨i, hi, c - start_col, by omega, hr, by omega⟩

/-- A 2-column template with values everywhere in rows 1–60. -/
def c7sheet : Sheet String :=
  { maxCol := 2, cells := fun r c => if r ≤ 60 ∧ 1 ≤ c ∧ c ≤ 3 then some "t" else none }

def c7df : List (List String) := [["x", "y"], ["z"]]

theorem c7_witness :
    (write_df_into_workbook c7df c7sheet 4 1).cells 4 1 = some "x"
    ∧ (write_df_into_workbook c7df c7sheet 4 1).cells 5 1 = some "z"
    ∧ (write_df_into_workbook c7df c7sheet 4 1).cells 6 2 = none
    ∧ (write_df_into_workbook c7df c7sheet 4 1).cells 10 1 = none
    ∧ (write_df_into_workbook c7df c7sheet 4 1).cells 3 1 = some "t"
    ∧ (write_df_into_workbook c7df c7sheet 4 1).cells 60 1 = some "t" :=
  ⟨(c7_template_write c7df c7sheet 4 1).1 0 (by decide) 0 (by decide),
    (c7_template_write c7df c7sheet 4 1).1 1 (by decide) 0 (by decide),
    (c7_template_write c7df c7sheet 4 1).2.1 6 2 (by decide) (by decide) (by decide)
      (by decide)
      (by rintro ⟨i, hi, j, hj, hr, hc⟩
          have hlen : c7df.length = 2 := rfl
          omega),
    (c7_template_write c7df c7sheet 4 1).2.1 10 1 (by decide) (by decide) (by decide)
      (by decide)
      (by rintro ⟨i, hi, j, hj, hr, hc⟩
          have hlen : c7df.length = 2 := rfl
          omega),
    (c7_template_write c7df c7sheet 4 1).2.2 3 1 (by decide)
      (by rintro ⟨i, hi, j, hj, hr, hc⟩
          omega),
    (c7_template_write c7df c7sheet 4 1).2.2 60 1 (by decide)
      (by rintro ⟨i, hi, j, hj, hr, hc⟩
          have hlen : c7df.length = 2 := rfl
          omega)⟩

/-! ### Per-month mode driver (`process_month_pdf` / `main` of
`generate_2024_from_pdfs.py`)

The filesystem is abstracted to which template names exist and what
table each PDF yields; the observable file operations (template copy,
workbook save) are recorded in order so that "no output file is
created" is provable. -/

/-- Environment of one run of the per-month script. -/
structure PdfEnv where
  hasTemplate : String → Bool
  extract : String → List (List String)

/-- An observable filesystem write. -/
inductive FsAct where
  | copy : String → String → FsAct
  | save : String → FsAct
deriving DecidableEq

/-- `pdf_name.split('_')[0]`: the month token of a PDF filename. -/
def month_key (pdfName : String) : String :=
  ⟨(splitChars '_' pdfName.data).headD []⟩

/-- `process_month_pdf(pdf_path)`: choose the month-specific template
`"<MONTH> 2023.xlsx"`, falling back to the generic `"2023.xlsx"`, and
raise (before any file operation) when neither exists; otherwise copy
the template to `"<MONTH> 2024.xlsx"`, extract the tables, and either
leave the copy as-is (empty extraction) or write and save the workbook.
Returns the file operations performed and the outcome. -/
def process_month_pdf (env : PdfEnv) (pdfName : String) :
    List FsAct × Except String String :=
  let month := month_key pdfName
  let templateName := month ++ " 2023.xlsx"
  if env.hasTemplate templateName then
    processCopy env pdfName month templateName
  else if env.hasTemplate "2023.xlsx" then
    processCopy env pdfName month "2023.xlsx"
  else
    ([], Except.error ("No template found for " ++ month))
where
  /-- The part of `process_month_pdf` after a template was found. -/
  processCopy (env : PdfEnv) (pdfName month tname : String) :
      List FsAct × Except String String :=
    let out := month ++ " 2024.xlsx"
    let df := env.extract pdfName
    if df = [] then ([FsAct.copy tname out], Except.ok out)
    else ([FsAct.copy tname out, FsAct.save out], Except.ok out)

/-- The `for pdf in pdf_files: try ... except` loop of `main`:
successful outputs are collected, failures are reported per item and
do not stop the batch. -/
def runMonths (env : PdfEnv) (pdfs : List String) : List String × List String :=
  pdfs.foldl
    (fun acc pdf =>
      match process_month_pdf env pdf with
      | (_, Except.ok out) => (acc.1 ++ [out], acc.2)
      | (_, Except.error e) =>
        (acc.1, acc.2 ++ ["Error processing " ++ pdf ++ ": " ++ e]))
    ([], [])

/-- The final `print(f"Done. Created {len(created)} files ...")`. -/
def main_summary (env : PdfEnv) (pdfs : List String) : String :=
  "Done. Created " ++ natStr (runMonths env pdfs).1.length ++ " files"

theorem runMonths_created_aux (env : PdfEnv) (pdfs : List String) :
    ∀ (a b : List String),
      (pdfs.foldl
        (fun acc pdf =>
          match process_month_pdf env pdf with
          | (_, Except.ok out) => (acc.1 ++ [out], acc.2)
          | (_, Except.error e) =>
            (acc.1, acc.2 ++ ["Error processing " ++ pdf ++ ": " ++ e]))
        (a, b)).1
      = a ++ pdfs.filterMap (fun p =>
          match (process_month_pdf env p).2 with
          | Except.ok out => some out
          | Except.error _ => none) := by
  induction pdfs with
  | nil => intro a b; simp
  | cons p rest ih =>
    intro a b
    simp only [List.foldl_cons, List.filterMap_cons]
    cases hp : process_month_pdf env p with
    | mk acts res =>
      cases res with
      | ok out => simp [hp, ih]
      | error e => simp [hp, ih]

/-- C8: if neither the month-specific nor the generic template exists
for some month, `process_month_pdf` raises before performing any file
operation (so no output file for that month is created); the driver
loop catches the failure per item, still collects the output of every
month whose processing succeeds, and the run ends normally with a
summary reporting the count of successfully produced files. -/
theorem c8_missing_template_isolated (env : PdfEnv) (pdfs : List String)
    (bad : String)
    (h1 : env.hasTemplate (month_key bad ++ " 2023.xlsx") = false)
    (h2 : env.hasTemplate "2023.xlsx" = false) :
    (process_month_pdf env bad).1 = []
    ∧ (process_month_pdf env bad).2
        = Except.error ("No template found for " ++ month_key bad)
    ∧ (runMonths env pdfs).1 = pdfs.filterMap (fun p =>
        match (process_month_pdf env p).2 with
        | Except.ok out => some out
        | Except.error _ => none)
    ∧ main_summary env pdfs
        = "Done. Created " ++ natStr ((runMonths env pdfs).1.length) ++ " files" := by
  refine ⟨?_, ?_, runMonths_created_aux env pdfs [] [], rfl⟩
  · unfold process_month_pdf
    simp [h1, h2]
  · unfold process_month_pdf
    simp [h1, h2]

/-- A run where only GENNAIO has a (month-specific) template and no
generic template exists. -/
def c8env : PdfEnv :=
  { hasTemplate := fun n => n == "GENNAIO 2023.xlsx",
    extract := fun _ => [["v"]] }

def c8pdfs : List String := ["FEBBRAIO_2024.pdf", "GENNAIO_2024.pdf"]

theorem c8_witness :
    (process_month_pdf c8env "FEBBRAIO_2024.pdf").1 = []
    ∧ (process_month_pdf c8env "FEBBRAIO_2024.pdf").2
        = Except.error "No template found for FEBBRAIO"
    ∧ (runMonths c8env c8pdfs).1 = ["GENNAIO 2024.xlsx"]
    ∧ main_summary c8env c8pdfs = "Done. Created 1 files" := by
  have h := c8_missing_template_isolated c8env c8pdfs "FEBBRAIO_2024.pdf"
    (by decide) (by decide)
  refine ⟨h.1, ?_, ?_, ?_⟩
  · rw [h.2.1]
    rfl
  · rw [h.2.2.1]
    decide
  · rw [h.2.2.2]
    decide

/-! ### Input selection of per-month mode (`main`) -/

/-- `glob.glob(DATA_DIR/'*_2024.pdf')`: a name matches when it ends in
`_2024.pdf` (the `*` may be empty) and is not a hidden dot-file (glob's
`*` does not match a leading dot). -/
def matchesPdfGlob (n : String) : Bool :=
  prefixOfChars "_2024.pdf".data.reverse n.data.reverse
    && !(prefixOfChars ".".data n.data)

/-- Lexicographic order on strings by code points — Python's `<=` on
`str` (and Lean's `String` order, stated on the character lists). -/
def strDataLe (a b : String) : Prop := a.data ≤ b.data

instance : DecidableRel strDataLe := fun a b =>
  inferInstanceAs (Decidable (a.data ≤ b.data))

instance : IsTotal String strDataLe := ⟨fun a b => le_total a.data b.data⟩

instance : IsTrans String strDataLe := ⟨fun _ _ _ => le_trans⟩

/-- `sorted(glob.glob(str(DATA_DIR / '*_2024.pdf')))`: the matching
names in ascending lexicographic order (`insertionSort` computes the
ascending permutation, which is what `sorted()` returns; directory
listings carry distinct names). -/
def selectPdfs (listing : List String) : List String :=
  (listing.filter matchesPdfGlob).insertionSort strDataLe

/-- `main()`: process the selected PDFs (an empty selection only prints
a message, which coincides with processing the empty list). -/
def main_per_month (env : PdfEnv) (listing : List String) :
    List String × List String :=
  runMonths env (selectPdfs listing)

/-- C10: per-month mode processes exactly the files of the data
directory whose names match `*_2024.pdf` — not a fixed list of twelve
monthly names — in sorted (lexicographic, hence alphabetical rather
than calendar) filename order; any matching file is selected, absent
months are simply not in the selection, and e.g. APRILE is processed
before GENNAIO. -/
theorem c10_glob_selection (listing : List String) :
    (∀ n, n ∈ selectPdfs listing ↔ n ∈ listing ∧ matchesPdfGlob n = true)
    ∧ (selectPdfs listing).Pairwise strDataLe
    ∧ selectPdfs ["GENNAIO_2024.pdf", "APRILE_2024.pdf", "notes.txt"]
        = ["APRILE_2024.pdf", "GENNAIO_2024.pdf"]
    ∧ (∀ env, main_per_month env listing = runMonths env (selectPdfs listing)) := by
  refine ⟨?_, ?_, by decide, fun _ => rfl⟩
  · intro n
    unfold selectPdfs
    rw [(List.perm_insertionSort strDataLe _).mem_iff]
    exact List.mem_filter
  · exact List.sorted_insertionSort strDataLe _

/-! ### The summary renderer (`generate_trace_md`)

`datetime.strptime(row['Date'], "%Y-%m-%d")` raises `TypeError` on a
non-string (the parsed-date objects a flight row leaves in `Date`) and
`ValueError` on a malformed string; the renderer is therefore modelled
in `Except`. -/

/-- `datetime.strptime(row['Date'], "%Y-%m-%d").date()` on an entry. -/
def dateOfEntry (e : Entry) : Except String Date :=
  match alistGet e "Date" with
  | some (Val.str s) =>
    match parseISO s with
    | some t => Except.ok t
    | none => Except.error "ValueError"
  | some (Val.date _) => Except.error "TypeError"
  | none => Except.error "KeyError"

/-- The entry belongs to month `m` of its parsed `Date`. -/
def entryMonthIs (m : Nat) (e : Entry) : Bool :=
  match dateOfEntry e with
  | Except.ok t => t.2.1 == m
  | Except.error _ => false

/-- `months = {m: [] for m in range(1, 13)}` followed by
`months[dt.month].append(row)` for each row, first failure aborting. -/
def groupMonths : List Entry → (Nat → List Entry) → Except String (Nat → List Entry)
  | [], acc => Except.ok acc
  | e :: rest, acc =>
    match dateOfEntry e with
    | Except.error err => Except.error err
    | Except.ok t =>
      groupMonths rest (fun m => if m = t.2.1 then acc m ++ [e] else acc m)

/-- One step of the per-month tally loop
(`if t == "Volo": vo += 1 elif t == "OFF (auto)": auto_off += 1 else: pdf += 1`);
the accumulator is `(vo, pdf, auto_off)`. -/
def tallyStep (acc : Nat × Nat × Nat) (r : Entry) : Nat × Nat × Nat :=
  match alistGet r "Type" with
  | some (Val.str t) =>
    if t = "Volo" then (acc.1 + 1, acc.2.1, acc.2.2)
    else if t = "OFF (auto)" then (acc.1, acc.2.1, acc.2.2 + 1)
    else (acc.1, acc.2.1 + 1, acc.2.2)
  | _ => (acc.1, acc.2.1 + 1, acc.2.2)

/-- The `(vo, pdf, auto_off)` tallies of one month's rows. -/
def tallyOf (rows : List Entry) : Nat × Nat × Nat :=
  rows.foldl tallyStep (0, 0, 0)

/-- `generate_trace_md(consolidated_df, ...)`: group the timeline by
month, then per month write the daily lines and the summary tallies.
The observable output is the per-month grouping and tallies. -/
def generate_trace_md (timeline : List Entry) :
    Except String ((Nat → List Entry) × (Nat → Nat × Nat × Nat)) :=
  match groupMonths timeline (fun _ => []) with
  | Except.error e => Except.error e
  | Except.ok months => Except.ok (months, fun m => tallyOf (months m))

/-- `Type` is exactly the flight label. -/
def isVolo (e : Entry) : Bool := decide (alistGet e "Type" = some (Val.str "Volo"))

/-- `Type` is exactly the default off label. -/
def isOffAuto (e : Entry) : Bool :=
  decide (alistGet e "Type" = some (Val.str "OFF (auto)"))

theorem tallyOf_counts_aux (rows : List Entry) :
    ∀ acc : Nat × Nat × Nat,
      rows.foldl tallyStep acc
        = (acc.1 + (rows.filter isVolo).length,
           acc.2.1 + (rows.filter (fun e => !isVolo e && !isOffAuto e)).length,
           acc.2.2 + (rows.filter isOffAuto).length) := by
  induction rows with
  | nil => intro acc; simp
  | cons r rest ih =>
    intro acc
    rw [List.foldl_cons, ih]
    cases hty : alistGet r "Type" with
    | none =>
      simp only [tallyStep, hty, List.filter_cons]
      have hv : isVolo r = false := by simp [isVolo, hty]
      have ho : isOffAuto r = false := by simp [isOffAuto, hty]
      simp [hv, ho]
      omega
    | some v =>
      cases v with
      | date t =>
        simp only [tallyStep, hty, List.filter_cons]
        have hv : isVolo r = false := by simp [isVolo, hty]
        have ho : isOffAuto r = false := by simp [isOffAuto, hty]
        simp [hv, ho]
        omega
      | str t =>
        by_cases h1 : t = "Volo"
        · subst h1
          simp only [tallyStep, hty, if_pos rfl, List.filter_cons]
          have hv : isVolo r = true := by simp [isVolo, hty]
          have ho : isOffAuto r = false := by simp [isOffAuto, hty]
          simp [hv, ho]
          omega
        · by_cases h2 : t = "OFF (auto)"
          · subst h2
            have hne : ¬ ("OFF (auto)" : String) = "Volo" := by decide
            simp only [tallyStep, hty, if_neg hne, if_pos rfl, List.filter_cons]
            have hv : isVolo r = false := by simp [isVolo, hty]
            have ho : isOffAuto r = true := by simp [isOffAuto, hty]
            simp [hv, ho]
            omega
          · simp only [tallyStep, hty, if_neg h1, if_neg h2, List.filter_cons]
            have hv : isVolo r = false := by simp [isVolo, hty, h1]
            have ho : isOffAuto r = false := by simp [isOffAuto, hty, h2]
            simp [hv, ho]
            omega

theorem tallyOf_counts (rows : List Entry) :
    tallyOf rows
      = ((rows.filter isVolo).length,
         (rows.filter (fun e => !isVolo e && !isOffAuto e)).length,
         (rows.filter isOffAuto).length) := by
  have := tallyOf_counts_aux rows (0, 0, 0)
  simpa [tallyOf] using this

/-- The three categories partition each month's rows. -/
theorem tallyOf_sum (rows : List Entry) :
    (tallyOf rows).1 + (tallyOf rows).2.1 + (tallyOf rows).2.2 = rows.length := by
  rw [tallyOf_counts]
  show (rows.filter isVolo).length
      + (rows.filter (fun e => !isVolo e && !isOffAuto e)).length
      + (rows.filter isOffAuto).length = rows.length
  induction rows with
  | nil => simp
  | cons r rest ih =>
    simp only [List.filter_cons]
    cases hv : isVolo r <;> cases ho : isOffAuto r
    · simp [hv, ho]
      omega
    · simp [hv, ho]
      omega
    · simp [hv, ho]
      omega
    · exfalso
      simp only [isVolo, decide_eq_true_eq] at hv
      simp only [isOffAuto, decide_eq_true_eq] at ho
      rw [hv] at ho
      exact absurd ho (by decide)

theorem groupMonths_filter (timeline : List Entry) :
    ∀ (acc : Nat → List Entry) (f : Nat → List Entry),
      groupMonths timeline acc = Except.ok f →
      ∀ m, f m = acc m ++ timeline.filter (entryMonthIs m) := by
  induction timeline with
  | nil =>
    intro acc f h m
    cases h
    simp
  | cons e rest ih =>
    intro acc f h m
    rw [groupMonths] at h
    cases hd : dateOfEntry e with
    | error err => rw [hd] at h; cases h
    | ok t =>
      rw [hd] at h
      have hacc := ih _ f h m
      rw [hacc]
      by_cases hm : m = t.2.1
      · rw [if_pos hm]
        have hme : entryMonthIs m e = true := by
          simp [entryMonthIs, hd, hm]
        simp [List.filter_cons, hme, List.append_assoc]
      · rw [if_neg hm]
        have hme : entryMonthIs m e = false := by
          simp only [entryMonthIs, hd]
          simp only [beq_eq_false_iff_ne, ne_eq]
          omega
        simp [List.filter_cons, hme]

theorem groupMonths_total (timeline : List Entry)
    (h : ∀ e ∈ timeline, ∃ t, dateOfEntry e = Except.ok t) :
    ∀ acc, ∃ f, groupMonths timeline acc = Except.ok f := by
  induction timeline with
  | nil => intro acc; exact ⟨acc, rfl⟩
  | cons e rest ih =>
    intro acc
    obtain ⟨t, ht⟩ := h e (List.mem_cons_self e rest)
    obtain ⟨f, hf⟩ := ih (fun e' he' => h e' (List.mem_cons_of_mem e he')) _
    exact ⟨f, by rw [groupMonths, ht]; exact hf⟩

/-- With an empty flights index the merged entry's `Date` is the
strftime string, which strptime parses back to the generating day. -/
theorem dateOfEntry_entryFor_empty (codes : List (Date × String)) (day : Date)
    (hday : day ∈ date_range 2024) :
    dateOfEntry (entryFor [] codes day) = Except.ok day := by
  have hf : alistGet ([] : List (Date × Entry)) day = none := rfl
  cases hc : alistGet codes day with
  | some c =>
    rw [entryFor_code [] codes day c hf hc]
    unfold dateOfEntry
    have : alistGet [("Date", Val.str (fmtDate day)), ("Type", Val.str c)] "Date"
        = some (Val.str (fmtDate day)) := by simp [alistGet, List.find?]
    rw [this]
    show (match parseISO (fmtDate day) with
      | some t => Except.ok t
      | none => Except.error "ValueError") = Except.ok day
    rw [parseISO_fmtDate day hday]
  | none =>
    rw [entryFor_off [] codes day hf hc]
    unfold dateOfEntry
    have : alistGet [("Date", Val.str (fmtDate day)), ("Type", Val.str "OFF (auto)")] "Date"
        = some (Val.str (fmtDate day)) := by simp [alistGet, List.find?]
    rw [this]
    show (match parseISO (fmtDate day) with
      | some t => Except.ok t
      | none => Except.error "ValueError") = Except.ok day
    rw [parseISO_fmtDate day hday]

set_option maxRecDepth 40000 in
theorem date_range_month_count (m : Nat) (hm1 : 1 ≤ m) (hm2 : m ≤ 12) :
    ((date_range 2024).filter (fun day => day.2.1 == m)).length
      = daysInMonth 2024 m := by
  interval_cases m <;> decide

/-- C9: whenever the renderer runs to completion, each month's group is
exactly the timeline entries whose `Date` parses to that month, the
three tallies count the group's entries with `Type` `"Volo"`, with any
other `Type`, and with `Type` `"OFF (auto)"` respectively, and the
three tallies sum to the number of entries of that month; on the real
pipeline (merge of an empty flights index with any codes index, whose
`Date` fields are all parseable strings) the renderer succeeds and each
month's tallies sum to the number of days of that month of 2024. -/
theorem c9_summary_tallies :
    (∀ (timeline : List Entry) (m : Nat), 1 ≤ m → m ≤ 12 →
      match generate_trace_md timeline with
      | Except.ok (months, tallies) =>
          months m = timeline.filter (entryMonthIs m)
          ∧ (tallies m).1 = ((timeline.filter (entryMonthIs m)).filter isVolo).length
          ∧ (tallies m).2.1 = ((timeline.filter (entryMonthIs m)).filter
              (fun e => !isVolo e && !isOffAuto e)).length
          ∧ (tallies m).2.2
              = ((timeline.filter (entryMonthIs m)).filter isOffAuto).length
          ∧ (tallies m).1 + (tallies m).2.1 + (tallies m).2.2
              = (timeline.filter (entryMonthIs m)).length
      | Except.error _ => True)
    ∧ (∀ (codes : List (Date × String)) (m : Nat), 1 ≤ m → m ≤ 12 →
      match generate_trace_md (build_consolidated [] codes) with
      | Except.ok (_months, tallies) =>
          (tallies m).1 + (tallies m).2.1 + (tallies m).2.2 = daysInMonth 2024 m
      | Except.error _ => False) := by
  constructor
  · intro timeline m hm1 hm2
    cases hg : groupMonths timeline (fun _ => []) with
    | error e => simp [generate_trace_md, hg]
    | ok months =>
      simp only [generate_trace_md, hg]
      have hfm : months m = timeline.filter (entryMonthIs m) := by
        have := groupMonths_filter timeline _ months hg m
        simpa using this
      refine ⟨hfm, ?_, ?_, ?_, ?_⟩
      · rw [tallyOf_counts, hfm]
      · rw [tallyOf_counts, hfm]
      · rw [tallyOf_counts, hfm]
      · rw [tallyOf_sum, hfm]
  · intro codes m hm1 hm2
    have htl : build_consolidated [] codes
        = (date_range 2024).map (entryFor [] codes) := rfl
    have hall : ∀ e ∈ build_consolidated [] codes,
        ∃ t, dateOfEntry e = Except.ok t := by
      intro e he
      rw [htl] at he
      obtain ⟨day, hday, rfl⟩ := List.mem_map.mp he
      exact ⟨day, dateOfEntry_entryFor_empty codes day hday⟩
    obtain ⟨f, hf⟩ := groupMonths_total (build_consolidated [] codes) hall (fun _ => [])
    simp only [generate_trace_md, hf]
    have hfm : f m = (build_consolidated [] codes).filter (entryMonthIs m) := by
      have := groupMonths_filter (build_consolidated [] codes) _ f hf m
      simpa using this
    rw [tallyOf_sum, hfm, htl]
    rw [List.filter_map, List.length_map]
    rw [List.filter_congr (fun day hday => ?_), date_range_month_count m hm1 hm2]
    show entryMonthIs m (entryFor [] codes day) = (day.2.1 == m)
    simp [entryMonthIs, dateOfEntry_entryFor_empty codes day hday]

/-- A two-entry June timeline: one duty-code day and one flight-label
day. -/
def c9tl : List Entry :=
  [[("Date", Val.str "2024-06-10"), ("Type", Val.str "RI")],
   [("Date", Val.str "2024-06-11"), ("Type", Val.str "Volo")]]

def c9codes : List (Date × String) := [((2024, 12, 25), "FER")]

theorem c9_witness :
    (match generate_trace_md c9tl with
      | Except.ok (months, tallies) =>
          months 6 = c9tl.filter (entryMonthIs 6)
          ∧ (tallies 6).1 = ((c9tl.filter (entryMonthIs 6)).filter isVolo).length
          ∧ (tallies 6).2.1 = ((c9tl.filter (entryMonthIs 6)).filter
              (fun e => !isVolo e && !isOffAuto e)).length
          ∧ (tallies 6).2.2
              = ((c9tl.filter (entryMonthIs 6)).filter isOffAuto).length
          ∧ (tallies 6).1 + (tallies 6).2.1 + (tallies 6).2.2
              = (c9tl.filter (entryMonthIs 6)).length
      | Except.error _ => True)
    ∧ (match generate_trace_md (build_consolidated [] c9codes) with
      | Except.ok (_months, tallies) =>
          (tallies 12).1 + (tallies 12).2.1 + (tallies 12).2.2 = daysInMonth 2024 12
      | Except.error _ => False) :=
  ⟨c9_summary_tallies.1 c9tl 6 (by decide) (by decide),
    c9_summary_tallies.2 c9codes 12 (by decide) (by decide)⟩

end Workplan
